import Mathlib

/-
  Verification development for the cyber-docs-backend OOXML composition
  engine (src/main.py, src/main_backup.py, src/fixed_main.py, src/app.py).

  The Python code manipulates relationship files, content types, section
  properties, style sheets and the final zip serialization of a DOCX
  package.  Each part of the engine that the claims concern is shallowly
  embedded below as an executable Lean function, translated from the
  source, and the claims are settled as theorems about these functions.
-/

namespace CyberDocs

/-! ## String helpers mirroring the Python operations used by the source -/

/-- Membership test for a character-list needle inside a haystack,
mirroring the Python substring operator: the empty needle occurs in
every string. -/
def occursIn (n : List Char) : List Char → Bool
  | [] => n.isEmpty
  | c :: t => n.isPrefixOf (c :: t) || occursIn n t

/-- Python substring containment on strings, as used in tests such as
(quote) header in target (unquote). -/
def containsSub (needle hay : String) : Bool :=
  occursIn needle.data hay.data

/-- ASCII lowercasing mirroring the Python str.lower call on the
ASCII part names and targets the source handles. -/
def lowerStr (s : String) : String :=
  ⟨s.data.map Char.toLower⟩

/-- Numeric value of a digit list, mirroring Python int() on a string of
decimal digits. -/
def digitsVal (l : List Char) : Nat :=
  l.foldl (fun a c => 10 * a + (c.toNat - 48)) 0

/-- Parse the numeric suffix of a relationship id of the form rIdN,
mirroring main.py lines 268-275: the id must start with rId and the
remainder must parse as an integer, otherwise the id is skipped. -/
def parseRid (s : String) : Option Nat :=
  match s.data with
  | 'r' :: 'I' :: 'd' :: rest =>
      if !rest.isEmpty && rest.all Char.isDigit then some (digitsVal rest) else none
  | _ => none

/-- Build a fresh relationship id, mirroring the f-string rId followed by
the numeral in main.py line 287. -/
def mkRid (n : Nat) : String := "rId" ++ toString n

/-! ## Relationship model (document.xml.rels and header/footer rels) -/

/-- One Relationship element of an OPC relationship file: Id, Type and
Target attributes, as read by the source via rel.get. -/
structure Relationship where
  rid : String
  relType : String
  target : String
deriving DecidableEq

/-- Maximum numeric rId suffix over a relationship collection,
mirroring the max_rid loop of main.py lines 266-275. -/
def maxRid (rels : List Relationship) : Nat :=
  rels.foldl (fun m r =>
    match parseRid r.rid with
    | some n => Nat.max m n
    | none => m) 0

/-- The predicate of main.py lines 283-285 selecting template
relationships to import: the target mentions header or footer
(lowercased), or mentions one of the media file names copied from the
template media directory. -/
def relMatchesHF (media : List String) (r : Relationship) : Bool :=
  containsSub "header" (lowerStr r.target) || containsSub "footer" (lowerStr r.target)
  || media.any (fun m => containsSub m r.target)

/-- Allocate imported relationships, mirroring main.py lines 286-299:
the i-th matching template relationship receives id rId(n+i+1), where n
is the maximum suffix found in the target, keeping the template Type and
Target. -/
def allocRels (n : Nat) : List Relationship → List Relationship
  | [] => []
  | r :: rs => ⟨mkRid (n + 1), r.relType, r.target⟩ :: allocRels (n + 1) rs

/-- The old-id to new-id mapping recorded alongside the allocation,
mirroring template_to_new_rids in main.py lines 290-291. -/
def allocMap (n : Nat) : List Relationship → List (String × String)
  | [] => []
  | r :: rs => (r.rid, mkRid (n + 1)) :: allocMap (n + 1) rs

/-- Import of the template document.xml.rels relationships into the
target collection, mirroring main.py lines 257-311: matching template
relationships are appended to the target with freshly allocated ids, and
the id mapping is returned for reference rewriting. -/
def importDocRels (media : List String) (tpl tgt : List Relationship) :
    List Relationship × List (String × String) :=
  let matched := tpl.filter (relMatchesHF media)
  let m0 := maxRid tgt
  (tgt ++ allocRels m0 matched, allocMap m0 matched)

/-- Processing of one header/footer relationship file, mirroring main.py
lines 241-248 and 319-349: the template file is first copied wholesale
over the target file, then every template relationship whose target
mentions media/ is appended again to that copy, keeping its original
id unchanged (line 343). -/
def processHFRelFile (tplRels : List Relationship) : List Relationship :=
  tplRels ++ tplRels.filter (fun r => containsSub "media/" r.target)

/-- Last-wins lookup in the id mapping, mirroring the Python dict
template_to_new_rids where a later insertion for the same key replaces
an earlier one. -/
def lookupLast (m : List (String × String)) (k : String) : Option String :=
  m.foldl (fun acc kv => if kv.1 == k then some kv.2 else acc) none

/-! ## Section properties model (w:sectPr children) -/

/-- One child element of a SectionProperties block, carrying the
attributes the source reads or writes. -/
inductive SectChild where
  | secType (val : String)
  | pgSz (w h orient : String)
  | pgMar (top right bottom left header footer : String)
  | headerRef (rid : String)
  | footerRef (rid : String)
  | cols
  | docGrid
  | otherChild (tag : String)
deriving DecidableEq

def isPgMar : SectChild → Bool
  | .pgMar _ _ _ _ _ _ => true
  | _ => false

def isPgSz : SectChild → Bool
  | .pgSz _ _ _ => true
  | _ => false

def isSecType : SectChild → Bool
  | .secType _ => true
  | _ => false

def isHFRef : SectChild → Bool
  | .headerRef _ => true
  | .footerRef _ => true
  | _ => false

/-- The fixed pgMar element the source always synthesizes: one-inch
margins (1440 twentieths of a point) and half-inch header/footer
distances (720), main.py lines 32-51. -/
def stdPgMar : SectChild :=
  .pgMar "1440" "1440" "1440" "1440" "720" "720"

/-- The A4 pgSz element synthesized when the section has no page size,
main.py lines 60-63. -/
def a4PgSz : SectChild :=
  .pgSz "11906" "16838" "portrait"

/-- Remove the first child matching a predicate, mirroring
ElementTree remove applied to the result of find. -/
def removeFirst (p : α → Bool) : List α → List α
  | [] => []
  | x :: xs => if p x then xs else x :: removeFirst p xs

/-- Insertion at a position with clamping, mirroring list.insert on an
ElementTree element child list. -/
def insertAt (n : Nat) (a : α) (l : List α) : List α :=
  l.take n ++ a :: l.drop n

/-- update_section_margins of main.py lines 29-73, translated child by
child: remove any existing pgMar, insert the fixed pgMar after the first
pgSz (creating an A4 pgSz first when none exists), then remove any
existing section type and insert a fresh nextPage type at position 0. -/
def update_section_margins (cs : List SectChild) : List SectChild :=
  let cs1 := removeFirst isPgMar cs
  let cs2 :=
    match cs1.findIdx? isPgSz with
    | some i => insertAt (i + 1) stdPgMar cs1
    | none => insertAt 1 stdPgMar (insertAt 0 a4PgSz cs1)
  let cs3 := removeFirst isSecType cs2
  insertAt 0 (SectChild.secType "nextPage") cs3

/-- Drop every header/footer reference child, mirroring the regex
substitution of main.py line 401 that removes all headerReference and
footerReference elements from the serialized sectPr. -/
def stripHFRefs (cs : List SectChild) : List SectChild :=
  cs.filter (fun c => !isHFRef c)

/-- Rewrite one template header/footer reference through the id mapping,
mirroring main.py lines 375-386: a mapped id is replaced, an unmapped id
is kept as is. -/
def mapHFRef (m : List (String × String)) (kr : Bool × String) : SectChild :=
  let nid := match lookupLast m kr.2 with
    | some n => n
    | none => kr.2
  if kr.1 then SectChild.headerRef nid else SectChild.footerRef nid

/-- The section-properties result of the main flow of main.py: the
document.xml step (lines 99-109) replaces the body sectPr with a fresh
element passed through update_section_margins, and the regex step (lines
388-409) then strips all header/footer references from it and appends
the template references, rewritten through the id mapping, immediately
before the closing tag.  The template references are given in template
document order as (isHeader, rid) pairs. -/
def composeSectPrMain (refs : List (Bool × String)) (m : List (String × String)) :
    List SectChild :=
  stripHFRefs (update_section_margins []) ++ refs.map (mapHFRef m)

/-- Extraction of the header/footer references of a sectPr in document
order, mirroring the regex finditer of main.py line 375 applied to the
serialized template. -/
def refsOfSectPr : List SectChild → List (Bool × String)
  | [] => []
  | .headerRef r :: t => (true, r) :: refsOfSectPr t
  | .footerRef r :: t => (false, r) :: refsOfSectPr t
  | _ :: t => refsOfSectPr t

/-- End-to-end section-properties composition as a function of the
template sectPr children: only the header/footer references of the
template are consulted, everything else is synthesized. -/
def composeFromTemplateSectPr (tplSect : List SectChild) (m : List (String × String)) :
    List SectChild :=
  composeSectPrMain (refsOfSectPr tplSect) m

/-- Category rank of a sectPr child in the order mandated by the spec:
section type, page size, page margins, header references, footer
references, column layout, document grid. -/
def catRank : SectChild → Nat
  | .secType _ => 0
  | .pgSz _ _ _ => 1
  | .pgMar _ _ _ _ _ _ => 2
  | .headerRef _ => 3
  | .footerRef _ => 4
  | .cols => 5
  | .docGrid => 6
  | .otherChild _ => 7

/-- Rank of a reference pair under the same ordering. -/
def kindRank (kr : Bool × String) : Nat :=
  if kr.1 then 3 else 4

/-- Boolean check that a list of ranks is nondecreasing. -/
def nondecB : List Nat → Bool
  | [] => true
  | [_] => true
  | a :: b :: t => decide (a ≤ b) && nondecB (b :: t)

/-- Number of header/footer reference children of a sectPr. -/
def hfRefCount (cs : List SectChild) : Nat :=
  cs.countP isHFRef

/-! ## Styles model (word/styles.xml)

The parsed root of styles.xml is the w:styles element itself; its
children are the docDefaults block, the style definitions, and other
elements.  Standard styles.xml files are flat at this level: a child
element can hold style definitions (modelled by the inner list of the
other constructor) but there is no deeper nesting of the elements the
source searches for. -/

/-- One style definition with its styleId attribute and opaque body. -/
structure Style where
  styleId : String
  body : String
deriving DecidableEq

/-- One child of the styles.xml root element. -/
inductive StylesChild where
  | dd (body : String)
  | sty (s : Style)
  | other (tag : String) (inner : List Style)
deriving DecidableEq

/-- Whether a child is the docDefaults element. -/
def isDDChild : StylesChild → Bool
  | .dd _ => true
  | _ => false

/-- Whether the root has a docDefaults child, mirroring the descendant
search of main.py line 154 on the flat file shape. -/
def hasDDb (cs : List StylesChild) : Bool :=
  cs.any isDDChild

/-- First docDefaults body found under the root, mirroring the find of
main.py line 152. -/
def firstDD : List StylesChild → Option String
  | [] => none
  | .dd b :: _ => some b
  | _ :: t => firstDD t

/-- All style elements in document order, mirroring the findall for
descendant style elements (main.py lines 163 and 174): root-level style
children and the styles held inside other elements. -/
def allStyles : List StylesChild → List Style
  | [] => []
  | .sty s :: t => s :: allStyles t
  | .other _ inner :: t => inner ++ allStyles t
  | .dd _ :: t => allStyles t

/-- Whether a child is an element tagged styles.  The parsed root is the
w:styles element itself and the descendant search of main.py line 181
never matches the root, so only a child bearing that tag can match. -/
def isStylesElem : StylesChild → Bool
  | .other tg _ => tg == "styles"
  | _ => false

/-- Index of the first descendant element tagged styles, mirroring
target_root.find for a descendant styles element in main.py line 181. -/
def findStylesIdx : List StylesChild → Option Nat
  | [] => none
  | c :: t => if isStylesElem c then some 0 else (findStylesIdx t).map (· + 1)

/-- Append a style into the inner list of the child at the given index,
mirroring ElementTree append into the found element. -/
def appendIntoChild : List StylesChild → Nat → Style → List StylesChild
  | [], _, _ => []
  | c :: t, 0, s =>
      (match c with
       | .other tg inner => .other tg (inner ++ [s])
       | c => c) :: t
  | c :: t, n + 1, s => c :: appendIntoChild t n s

/-- Whether a style with the given id is already present, mirroring the
existence loop of main.py lines 172-177 over all descendant styles. -/
def stylePresent (cs : List StylesChild) (s : Style) : Bool :=
  (allStyles cs).any (fun u => u.styleId == s.styleId)

/-- One iteration of the style-import loop of main.py lines 169-184: a
style whose id is already present is skipped, otherwise it is appended
into the first descendant element tagged styles; when no such element
exists (the flat styles.xml case) nothing happens. -/
def mergeStylesStep (acc : List StylesChild) (s : Style) : List StylesChild :=
  if stylePresent acc s then acc
  else
    match findStylesIdx acc with
    | some i => appendIntoChild acc i s
    | none => acc

/-- Left fold of the import loop over the selected template styles. -/
def foldSteps : List Style → List StylesChild → List StylesChild
  | [], acc => acc
  | s :: rest, acc => foldSteps rest (mergeStylesStep acc s)

/-- The filter of main.py lines 163-166: only template styles whose id
mentions Header or Footer (case sensitive) are considered for import. -/
def hfStyleFilter (s : Style) : Bool :=
  containsSub "Header" s.styleId || containsSub "Footer" s.styleId

/-- The docDefaults step of main.py lines 151-159: when the template has
a docDefaults block, the target has none and the target root has at
least one child, the template block is inserted at position 0. -/
def ddStep (tpl tgt : List StylesChild) : List StylesChild :=
  match firstDD tpl with
  | none => tgt
  | some d =>
      if hasDDb tgt then tgt
      else if tgt.length > 0 then .dd d :: tgt else tgt

/-- The styles.xml merge of main.py lines 140-188 for the case where
both packages carry a styles.xml: docDefaults step, then the import loop
over the template header/footer styles. -/
def mergeStylesXml (tpl tgt : List StylesChild) : List StylesChild :=
  foldSteps ((allStyles tpl).filter hfStyleFilter) (ddStep tpl tgt)

/-! ## Auxiliary parts copy (styles, theme, settings, fontTable,
webSettings, numbering) -/

/-- The six auxiliary parts handled by the style-file loop of main.py
lines 117-138.  The styles part carries the parsed child list, the other
parts are opaque byte strings. -/
structure AuxParts where
  stylesP : Option (List StylesChild)
  themeP : Option String
  settingsP : Option String
  fontTableP : Option String
  webSettingsP : Option String
  numberingP : Option String
deriving DecidableEq

/-- The copy decision of main.py lines 131-137 for a non-styles part: a
template part is copied only when the target file does not exist; when
the target has the part, the target version is kept; a missing template
part leaves the target untouched. -/
def keepTargetOrCopy (tplPart tgtPart : Option α) : Option α :=
  match tgtPart with
  | some g => some g
  | none => tplPart

/-- The whole style-file loop of main.py lines 117-194: every part is
copied only when missing from the target; when both exist the target
version is kept, except styles.xml which goes through the merge. -/
def copyStyleFiles (tpl tgt : AuxParts) : AuxParts where
  stylesP :=
    match tpl.stylesP, tgt.stylesP with
    | none, g => g
    | some t, none => some t
    | some t, some g => some (mergeStylesXml t g)
  themeP := keepTargetOrCopy tpl.themeP tgt.themeP
  settingsP := keepTargetOrCopy tpl.settingsP tgt.settingsP
  fontTableP := keepTargetOrCopy tpl.fontTableP tgt.fontTableP
  webSettingsP := keepTargetOrCopy tpl.webSettingsP tgt.webSettingsP
  numberingP := keepTargetOrCopy tpl.numberingP tgt.numberingP

/-! ## Content types model ([Content_Types].xml) -/

/-- A Default rule: extension (without dot) to MIME type. -/
structure CTDefault where
  dExt : String
  dType : String
deriving DecidableEq

/-- An Override rule: exact part name to MIME type. -/
structure CTOverride where
  oPart : String
  oType : String
deriving DecidableEq

/-- The parsed [Content_Types].xml. -/
structure ContentTypes where
  cDefaults : List CTDefault
  cOverrides : List CTOverride
deriving DecidableEq

/-- The part-name filter of main.py line 502: the lowercased part name
mentions header, footer or media. -/
def hfMediaPart (p : String) : Bool :=
  containsSub "header" (lowerStr p) || containsSub "footer" (lowerStr p)
  || containsSub "media" (lowerStr p)

/-- One iteration of the override loop of main.py lines 505-517: the
override is appended unless an override with the same PartName is
already present in the growing target list.  Defaults are not consulted
anywhere in this loop. -/
def addOverrideIfAbsent (acc : List CTOverride) (o : CTOverride) : List CTOverride :=
  if acc.any (fun t => t.oPart == o.oPart) then acc else acc ++ [o]

/-- The fixed image-extension table of main.py lines 520-529, listing
the MIME type the source writes for each extension. -/
def imageTypesList : List (String × String) :=
  [("png", "image/png"), ("jpg", "image/jpeg"), ("jpeg", "image/jpeg"),
   ("gif", "image/gif"), ("bmp", "image/bmp"), ("tif", "image/tiff"),
   ("tiff", "image/tiff"), ("wmf", "image/x-wmf")]

/-- The content-types update of main.py lines 486-551: template
overrides for header/footer/media parts are appended when no override
with the same PartName exists, and an image Default is appended for each
table extension that is absent from the target but present in the
template.  The function is total: no coverage check is performed and no
failure is possible. -/
def mergeContentTypes (tpl tgt : ContentTypes) : ContentTypes where
  cOverrides :=
    (tpl.cOverrides.filter (fun o => hfMediaPart o.oPart)).foldl addOverrideIfAbsent
      tgt.cOverrides
  cDefaults :=
    imageTypesList.foldl
      (fun acc et =>
        if acc.any (fun d => d.dExt == et.1) then acc
        else if tpl.cDefaults.any (fun d => d.dExt == et.1) then acc ++ [⟨et.1, et.2⟩]
        else acc)
      tgt.cDefaults

/-! ## Path arithmetic and the filesystem model of serialization -/

/-- Last index of a character in a list, or none, mirroring str.rfind. -/
def lastIdxOf (c : Char) (l : List Char) : Option Nat :=
  (l.foldl
    (fun st x => (st.1 + 1, if x = c then some st.1 else st.2))
    ((0, none) : Nat × Option Nat)).2

/-- Index at which os.path.splitext splits a path, mirroring the Python
genericpath implementation: the last dot after the last separator, and
only when a non-dot character precedes it within the base name. -/
def splitextIdx (s : String) : Option Nat :=
  let l := s.data
  match lastIdxOf '.' l with
  | none => none
  | some d =>
      let fstart :=
        match lastIdxOf '/' l with
        | none => 0
        | some si => si + 1
      if fstart ≤ d then
        if ((l.drop fstart).take (d - fstart)).any (fun c => c ≠ '.') then some d
        else none
      else none

/-- The root part of os.path.splitext. -/
def splitextBase (s : String) : String :=
  match splitextIdx s with
  | none => s
  | some d => ⟨s.data.take d⟩

/-- The extension part of os.path.splitext, dot included. -/
def splitextExt (s : String) : String :=
  match splitextIdx s with
  | none => ""
  | some d => ⟨s.data.drop d⟩

/-- Extension of a part name, lowercased and without the dot, used to
express Default-rule coverage when stating the content-type claims. -/
def partExt (p : String) : String :=
  lowerStr ⟨(splitextExt p).data.drop 1⟩

/-- Whether at least one content-type rule applies to a part: an
Override with the exact part name, or a Default for its extension.  The
source never computes this check; it is the coverage predicate of the
specification. -/
def coversPart (cts : ContentTypes) (part : String) : Bool :=
  cts.cOverrides.any (fun o => o.oPart == part)
  || cts.cDefaults.any (fun d => lowerStr d.dExt == partExt part)

/-- Content of a file in the modelled filesystem: either an archive
produced by a zip-writing step, flagged complete or incomplete, or an
arbitrary pre-existing file. -/
inductive FData where
  | archive (complete : Bool)
  | file (id : Nat)
deriving DecidableEq

/-- The filesystem outside the temporary working directory, as a map
from paths to optional file contents. -/
def FS : Type := String → Option FData

/-- Point update of the filesystem. -/
def fsUpdate (fs : FS) (p : String) (v : Option FData) : FS :=
  fun q => if q = p then v else fs q

/-- Success or failure of each fallible step of the serialization tail of
apply_branding_to_docx (main.py lines 560-593). -/
structure SaveFlags where
  archiveOk : Bool
  mkdirOk : Bool
  removeOk : Bool
  renameOk : Bool
  altArchiveOk : Bool
  altRenameOk : Bool
deriving DecidableEq

/-- The alternative serialization branch of main.py lines 576-593,
entered on any exception: a zip is written at base_alt.zip (left
incomplete when the write fails) and on success renamed to
base_alt.docx; a rename failure is caught and leaves the zip in
place. -/
def altBranch (fs : FS) (base : String) (fl : SaveFlags) : FS :=
  let altZip := base ++ "_alt.zip"
  let fs1 := fsUpdate fs altZip (some (.archive fl.altArchiveOk))
  if fl.altArchiveOk then
    if fl.altRenameOk then
      fsUpdate (fsUpdate fs1 (base ++ "_alt.docx") (fs1 altZip)) altZip none
    else fs1
  else fs1

/-- The serialization tail of main.py lines 560-593.  make_archive
always writes to base.zip, overwriting any file there and leaving an
incomplete archive on failure; on success the code creates the output
directory, removes a pre-existing output file, and renames the zip onto
the output path.  Any exception diverts to the alternative branch.  All
failure handling is internal: the function always returns normally. -/
def saveMain (fs : FS) (outputPath : String) (fl : SaveFlags) : FS :=
  let base := splitextBase outputPath
  let zipPath := base ++ ".zip"
  let fs1 := fsUpdate fs zipPath (some (.archive fl.archiveOk))
  if fl.archiveOk then
    if fl.mkdirOk then
      if (fs1 outputPath).isSome then
        if fl.removeOk then
          let fs2 := fsUpdate fs1 outputPath none
          if fl.renameOk then
            fsUpdate (fsUpdate fs2 outputPath (fs2 zipPath)) zipPath none
          else altBranch fs2 base fl
        else altBranch fs1 base fl
      else
        if fl.renameOk then
          fsUpdate (fsUpdate fs1 outputPath (fs1 zipPath)) zipPath none
        else altBranch fs1 base fl
    else altBranch fs1 base fl
  else altBranch fs1 base fl

/-- One .docx iteration of batch_process (main.py lines 627-666).  When
the output path is occupied the work goes to a _temp name first; an
exception raised by apply_branding_to_docx is caught and answered with a
fallback copy of the original input; but a serialization failure inside
apply_branding_to_docx is swallowed there (saveMain always returns
normally), so the batch also returns normally.  extractRaises models an
exception escaping apply_branding_to_docx (for example an unreadable
input zip); copyOk models the fallback copy succeeding. -/
def batchStepDocx (fs : FS) (inp outp : String) (extractRaises : Bool)
    (fl : SaveFlags) (copyOk : Bool) : FS :=
  let base := splitextBase outp
  let ext := splitextExt outp
  let tempOut := if (fs outp).isSome then base ++ "_temp" ++ ext else outp
  if extractRaises then
    if copyOk then
      fsUpdate fs (splitextBase tempOut ++ "_fallback" ++ splitextExt tempOut) (fs inp)
    else fs
  else
    let fs1 := saveMain fs tempOut fl
    if tempOut = outp then fs1
    else
      let fs2 := if (fs1 outp).isSome then fsUpdate fs1 outp none else fs1
      fsUpdate (fsUpdate fs2 outp (fs2 tempOut)) tempOut none

/-! ## Lemmas about the style merge -/

theorem findStylesIdx_appendIntoChild (l : List StylesChild) (i : Nat) (s : Style) :
    findStylesIdx (appendIntoChild l i s) = findStylesIdx l := by
  induction l generalizing i with
  | nil => cases i <;> rfl
  | cons c t ih =>
      cases i with
      | zero => cases c <;> simp [appendIntoChild, findStylesIdx, isStylesElem]
      | succ n => cases c <;> simp [appendIntoChild, findStylesIdx, isStylesElem, ih]

theorem hasDDb_appendIntoChild (l : List StylesChild) (i : Nat) (s : Style) :
    hasDDb (appendIntoChild l i s) = hasDDb l := by
  induction l generalizing i with
  | nil => cases i <;> rfl
  | cons c t ih =>
      cases i with
      | zero => cases c <;> simp [appendIntoChild, hasDDb, isDDChild]
      | succ n =>
          have ih' : List.any (appendIntoChild t n s) isDDChild = List.any t isDDChild := ih n
          show List.any (c :: appendIntoChild t n s) isDDChild = List.any (c :: t) isDDChild
          simp only [List.any_cons, ih']

theorem mem_allStyles_appendIntoChild (l : List StylesChild) (i : Nat) (s u : Style)
    (h : u ∈ allStyles l) : u ∈ allStyles (appendIntoChild l i s) := by
  induction l generalizing i with
  | nil => simpa [appendIntoChild] using h
  | cons c t ih =>
      cases i with
      | zero =>
          cases c with
          | dd b => simpa [appendIntoChild, allStyles] using h
          | sty v => simpa [appendIntoChild, allStyles] using h
          | other tg inner =>
              simp only [allStyles, List.mem_append] at h
              show u ∈ (inner ++ [s]) ++ allStyles t
              rcases h with h | h
              · exact List.mem_append_left _ (List.mem_append_left _ h)
              · exact List.mem_append_right _ h
      | succ n =>
          cases c with
          | dd b =>
              exact ih n (by simpa [allStyles] using h)
          | sty v =>
              simp only [allStyles, List.mem_cons] at h
              show u ∈ v :: allStyles (appendIntoChild t n s)
              rcases h with h | h
              · exact List.mem_cons.mpr (Or.inl h)
              · exact List.mem_cons.mpr (Or.inr (ih n h))
          | other tg inner =>
              simp only [allStyles, List.mem_append] at h
              show u ∈ inner ++ allStyles (appendIntoChild t n s)
              rcases h with h | h
              · exact List.mem_append_left _ h
              · exact List.mem_append_right _ (ih n h)

theorem self_mem_appendIntoChild (l : List StylesChild) (i : Nat) (s : Style)
    (h : findStylesIdx l = some i) : s ∈ allStyles (appendIntoChild l i s) := by
  induction l generalizing i with
  | nil => simp [findStylesIdx] at h
  | cons c t ih =>
      by_cases hc : isStylesElem c = true
      · have hi : i = 0 := by
          simp only [findStylesIdx, if_pos hc, Option.some_inj] at h
          omega
        subst hi
        cases c with
        | other tg inner =>
            show s ∈ (inner ++ [s]) ++ allStyles t
            exact List.mem_append_left _ (List.mem_append_right _ (List.mem_singleton.mpr rfl))
        | dd b => simp [isStylesElem] at hc
        | sty v => simp [isStylesElem] at hc
      · simp only [findStylesIdx] at h
        rw [if_neg hc] at h
        rcases Option.map_eq_some'.mp h with ⟨j, hj, hji⟩
        have hij : i = j + 1 := hji.symm
        subst hij
        cases c with
        | dd b =>
            show s ∈ allStyles (appendIntoChild t j s)
            exact ih j hj
        | sty v =>
            show s ∈ v :: allStyles (appendIntoChild t j s)
            exact List.mem_cons.mpr (Or.inr (ih j hj))
        | other tg inner =>
            show s ∈ inner ++ allStyles (appendIntoChild t j s)
            exact List.mem_append_right _ (ih j hj)

theorem stylePresent_appendIntoChild (l : List StylesChild) (i : Nat) (s u : Style)
    (h : stylePresent l u = true) : stylePresent (appendIntoChild l i s) u = true := by
  rcases List.any_eq_true.mp h with ⟨v, hv, hvu⟩
  exact List.any_eq_true.mpr ⟨v, mem_allStyles_appendIntoChild l i s v hv, hvu⟩

theorem findStylesIdx_step (acc : List StylesChild) (s : Style) :
    findStylesIdx (mergeStylesStep acc s) = findStylesIdx acc := by
  unfold mergeStylesStep
  split
  · rfl
  · split
    · next i hi => exact findStylesIdx_appendIntoChild acc i s
    · rfl

theorem hasDDb_step (acc : List StylesChild) (s : Style) :
    hasDDb (mergeStylesStep acc s) = hasDDb acc := by
  unfold mergeStylesStep
  split
  · rfl
  · split
    · next i hi => exact hasDDb_appendIntoChild acc i s
    · rfl

theorem stylePresent_step (acc : List StylesChild) (s u : Style)
    (h : stylePresent acc u = true) : stylePresent (mergeStylesStep acc s) u = true := by
  unfold mergeStylesStep
  split
  · exact h
  · split
    · next i hi => exact stylePresent_appendIntoChild acc i s u h
    · exact h

theorem step_id_of_none (acc : List StylesChild) (s : Style)
    (h : findStylesIdx acc = none) : mergeStylesStep acc s = acc := by
  unfold mergeStylesStep
  split
  · rfl
  · rw [h]

theorem stylePresent_after_step (acc : List StylesChild) (s : Style) :
    stylePresent (mergeStylesStep acc s) s = true ∨ findStylesIdx acc = none := by
  by_cases hp : stylePresent acc s = true
  · left
    unfold mergeStylesStep
    rw [if_pos hp]
    exact hp
  · rcases hfi : findStylesIdx acc with _ | i
    · right; rfl
    · left
      unfold mergeStylesStep
      rw [if_neg hp, hfi]
      exact List.any_eq_true.mpr ⟨s, self_mem_appendIntoChild acc i s hfi, by simp⟩

theorem foldSteps_id_of_none (l : List Style) (acc : List StylesChild)
    (h : findStylesIdx acc = none) : foldSteps l acc = acc := by
  induction l with
  | nil => rfl
  | cons s rest ih =>
      simp only [foldSteps, step_id_of_none acc s h, ih]

theorem findStylesIdx_foldSteps (l : List Style) (acc : List StylesChild) :
    findStylesIdx (foldSteps l acc) = findStylesIdx acc := by
  induction l generalizing acc with
  | nil => rfl
  | cons s rest ih =>
      simp only [foldSteps, ih, findStylesIdx_step]

theorem hasDDb_foldSteps (l : List Style) (acc : List StylesChild) :
    hasDDb (foldSteps l acc) = hasDDb acc := by
  induction l generalizing acc with
  | nil => rfl
  | cons s rest ih =>
      simp only [foldSteps, ih, hasDDb_step]

theorem stylePresent_foldSteps (l : List Style) (acc : List StylesChild) (u : Style)
    (h : stylePresent acc u = true) : stylePresent (foldSteps l acc) u = true := by
  induction l generalizing acc with
  | nil => exact h
  | cons s rest ih =>
      exact ih (mergeStylesStep acc s) (stylePresent_step acc s u h)

theorem stylePresent_all_after_fold (l : List Style) (acc : List StylesChild) :
    ∀ s ∈ l, stylePresent (foldSteps l acc) s = true ∨ findStylesIdx acc = none := by
  induction l generalizing acc with
  | nil => intro s hs; cases hs
  | cons x rest ih =>
      intro s hs
      rcases List.mem_cons.mp hs with rfl | hs
      · rcases stylePresent_after_step acc s with h | h
        · left
          exact stylePresent_foldSteps rest (mergeStylesStep acc s) s h
        · right; exact h
      · rcases ih (mergeStylesStep acc x) s hs with h | h
        · left; exact h
        · right
          rw [← findStylesIdx_step acc x]
          exact h

theorem foldSteps_id_of_present (l : List Style) (acc : List StylesChild)
    (h : ∀ s ∈ l, stylePresent acc s = true ∨ findStylesIdx acc = none) :
    foldSteps l acc = acc := by
  induction l with
  | nil => rfl
  | cons s rest ih =>
      have hstep : mergeStylesStep acc s = acc := by
        rcases h s (List.mem_cons_self s rest) with hp | hn
        · unfold mergeStylesStep
          rw [if_pos hp]
        · exact step_id_of_none acc s hn
      simp only [foldSteps, hstep]
      exact ih (fun u hu => h u (List.mem_cons_of_mem s hu))

theorem ddStep_id_of (tpl g : List StylesChild)
    (h : hasDDb g = true ∨ firstDD tpl = none ∨ g = []) : ddStep tpl g = g := by
  rcases h with h | h | h
  · rcases hfd : firstDD tpl with _ | d <;> simp [ddStep, hfd, h]
  · simp [ddStep, h]
  · subst h
    rcases hfd : firstDD tpl with _ | d <;> simp [ddStep, hfd, hasDDb]

/-- The style merge is idempotent: re-running it with the same template
against its own output changes nothing. -/
theorem mergeStylesXml_idem (tpl tgt : List StylesChild) :
    mergeStylesXml tpl (mergeStylesXml tpl tgt) = mergeStylesXml tpl tgt := by
  have hM : mergeStylesXml tpl tgt
      = foldSteps ((allStyles tpl).filter hfStyleFilter) (ddStep tpl tgt) := rfl
  have hdd : ddStep tpl (mergeStylesXml tpl tgt) = mergeStylesXml tpl tgt := by
    apply ddStep_id_of
    rcases hfd : firstDD tpl with _ | d
    · right; left; rfl
    · by_cases hD : hasDDb tgt = true
      · have h1 : ddStep tpl tgt = tgt := ddStep_id_of tpl tgt (Or.inl hD)
        left
        rw [hM, hasDDb_foldSteps, h1, hD]
      · by_cases hL : tgt.length > 0
        · have h1 : ddStep tpl tgt = .dd d :: tgt := by
            simp [ddStep, hfd, hD, hL]
          left
          rw [hM, hasDDb_foldSteps, h1]
          simp [hasDDb, isDDChild]
        · have hnil : tgt = [] := List.length_eq_zero.mp (by omega)
          subst hnil
          have h1 : ddStep tpl ([] : List StylesChild) = [] :=
            ddStep_id_of tpl [] (Or.inr (Or.inr rfl))
          right; right
          rw [hM, h1]
          exact foldSteps_id_of_none _ _ rfl
  have hexp : mergeStylesXml tpl (mergeStylesXml tpl tgt)
      = foldSteps ((allStyles tpl).filter hfStyleFilter)
          (ddStep tpl (mergeStylesXml tpl tgt)) := rfl
  rw [hexp, hdd]
  apply foldSteps_id_of_present
  intro s hs
  rcases stylePresent_all_after_fold ((allStyles tpl).filter hfStyleFilter)
      (ddStep tpl tgt) s hs with h | h
  · left
    rw [hM]
    exact h
  · right
    rw [hM, findStylesIdx_foldSteps]
    exact h

/-! ## Lemmas about relationship import -/

theorem allocRels_length (n : Nat) (l : List Relationship) :
    (allocRels n l).length = l.length := by
  induction l generalizing n with
  | nil => rfl
  | cons r rs ih => simp [allocRels, ih]

theorem allocRels_pairs (n : Nat) (l : List Relationship) (r : Relationship)
    (h : r ∈ allocRels n l) :
    ∃ t ∈ l, t.relType = r.relType ∧ t.target = r.target := by
  induction l generalizing n with
  | nil => cases h
  | cons x rs ih =>
      rcases List.mem_cons.mp h with rfl | h
      · exact ⟨x, List.mem_cons_self x rs, rfl, rfl⟩
      · rcases ih (n + 1) h with ⟨t, ht, h1, h2⟩
        exact ⟨t, List.mem_cons_of_mem x ht, h1, h2⟩

theorem allocRels_covers (n : Nat) (l : List Relationship) (t : Relationship)
    (h : t ∈ l) :
    ∃ s ∈ allocRels n l, s.relType = t.relType ∧ s.target = t.target := by
  induction l generalizing n with
  | nil => cases h
  | cons x rs ih =>
      rcases List.mem_cons.mp h with rfl | h
      · exact ⟨⟨mkRid (n + 1), t.relType, t.target⟩, List.mem_cons_self _ _, rfl, rfl⟩
      · rcases ih (n + 1) h with ⟨s, hs, h1, h2⟩
        exact ⟨s, List.mem_cons_of_mem _ hs, h1, h2⟩

/-! ## Lemmas about the composed section properties -/

theorem composeSectPrMain_eq (refs : List (Bool × String)) (m : List (String × String)) :
    composeSectPrMain refs m
      = SectChild.secType "nextPage" :: a4PgSz :: stdPgMar :: refs.map (mapHFRef m) := rfl

theorem isHFRef_mapHFRef (m : List (String × String)) (kr : Bool × String) :
    isHFRef (mapHFRef m kr) = true := by
  obtain ⟨b, rid⟩ := kr
  cases b <;> simp [mapHFRef, isHFRef]

theorem catRank_mapHFRef (m : List (String × String)) (kr : Bool × String) :
    catRank (mapHFRef m kr) = kindRank kr := by
  obtain ⟨b, rid⟩ := kr
  cases b <;> simp [mapHFRef, catRank, kindRank]

theorem countRefs_mapped (refs : List (Bool × String)) (m : List (String × String)) :
    (refs.map (mapHFRef m)).countP isHFRef = refs.length := by
  induction refs with
  | nil => rfl
  | cons kr rest ih =>
      simp [List.countP_cons, isHFRef_mapHFRef, ih]

theorem hfRefCount_composeSectPrMain (refs : List (Bool × String))
    (m : List (String × String)) :
    hfRefCount (composeSectPrMain refs m) = refs.length := by
  rw [composeSectPrMain_eq]
  show List.countP isHFRef
      (SectChild.secType "nextPage" :: a4PgSz :: stdPgMar :: refs.map (mapHFRef m))
      = refs.length
  rw [List.countP_cons, List.countP_cons, List.countP_cons, countRefs_mapped]
  simp [isHFRef, stdPgMar, a4PgSz]

theorem kindRank_ge (kr : Bool × String) : 3 ≤ kindRank kr := by
  obtain ⟨b, rid⟩ := kr
  cases b <;> simp [kindRank]

theorem nondecB_prefix (rs : List Nat) (h : nondecB rs = true)
    (hge : ∀ x ∈ rs, 3 ≤ x) : nondecB (0 :: 1 :: 2 :: rs) = true := by
  cases rs with
  | nil => rfl
  | cons r t =>
      have h2r : 2 ≤ r := le_trans (by omega) (hge r (List.mem_cons_self r t))
      simp [nondecB, h2r]
      simpa [nondecB] using h

theorem ranks_of_mapped (refs : List (Bool × String)) (m : List (String × String)) :
    (refs.map (mapHFRef m)).map catRank = refs.map kindRank := by
  induction refs with
  | nil => rfl
  | cons kr rest ih =>
      simp [catRank_mapHFRef, ih]

theorem importDocRels_fst (media : List String) (tpl tgt : List Relationship) :
    (importDocRels media tpl tgt).1
      = tgt ++ allocRels (maxRid tgt) (tpl.filter (relMatchesHF media)) := rfl

/-! ## Claim C1 -/

/-- The OPC relationship type of an image part. -/
def imageRelType : String :=
  "http://schemas.openxmlformats.org/officeDocument/2006/relationships/image"

/-- A template header1.xml.rels holding one relationship to a header
image, the standard shape of a branded template header. -/
def c1TplRels : List Relationship :=
  [⟨"rId1", imageRelType, "media/image1.png"⟩]

/-- Claim C1, settled as a code bug: relationship ids are not unique in
every relationship file of the output.  For a template header rels file
holding a media relationship, the engine first copies the file wholesale
into the target and then appends the same media relationship again with
its original id, so the output header1.xml.rels holds two relationships
with id rId1. -/
theorem c1_code_bug :
    processHFRelFile c1TplRels
        = [⟨"rId1", imageRelType, "media/image1.png"⟩,
           ⟨"rId1", imageRelType, "media/image1.png"⟩]
    ∧ ¬ ((processHFRelFile c1TplRels).map (fun r => r.rid)).Nodup :=
  ⟨by decide, by decide⟩

/-! ## Claim C2 -/

/-- Template document.xml.rels with one header relationship. -/
def c2Tpl : List Relationship := [⟨"rId5", "hfT", "header1.xml"⟩]

/-- Target document.xml.rels with one unrelated relationship. -/
def c2Tgt : List Relationship := [⟨"rId1", "sT", "styles.xml"⟩]

/-- Claim C2 is false: re-running the relationship import is not
idempotent.  The engine never looks for an existing relationship with
the same (type, target); the second run grows the collection and leaves
two relationships with the identical (type, target) pair. -/
theorem c2_counterexample :
    (importDocRels [] c2Tpl ((importDocRels [] c2Tpl c2Tgt).1)).1
        ≠ (importDocRels [] c2Tpl c2Tgt).1
    ∧ (importDocRels [] c2Tpl ((importDocRels [] c2Tpl c2Tgt).1)).1.countP
        (fun r => r.relType == "hfT" && r.target == "header1.xml") = 2 :=
  ⟨by decide, by decide⟩

/-- Claim C2 (amended): the second run re-imports every matching
template relationship (the collection grows by the number of matches),
but introduces no new (type, target) pair beyond those already present
after the first run; the style merge is idempotent, and the
header/footer reference count of the rebuilt section properties does not
depend on the run (it always equals the number of template
references). -/
theorem c2_amended (media : List String) (tpl tgt : List Relationship) :
    (importDocRels media tpl ((importDocRels media tpl tgt).1)).1.length
        = ((importDocRels media tpl tgt).1).length
          + (tpl.filter (relMatchesHF media)).length
    ∧ (∀ r ∈ (importDocRels media tpl ((importDocRels media tpl tgt).1)).1,
        ∃ s ∈ (importDocRels media tpl tgt).1,
          s.relType = r.relType ∧ s.target = r.target)
    ∧ (∀ tpls tgts : List StylesChild,
        mergeStylesXml tpls (mergeStylesXml tpls tgts) = mergeStylesXml tpls tgts)
    ∧ (∀ refs : List (Bool × String), ∀ m1 m2 : List (String × String),
        hfRefCount (composeSectPrMain refs m1) = hfRefCount (composeSectPrMain refs m2)) := by
  refine ⟨?_, ?_, ?_, ?_⟩
  · rw [importDocRels_fst media tpl ((importDocRels media tpl tgt).1),
      List.length_append, allocRels_length]
  · intro r hr
    rw [importDocRels_fst media tpl ((importDocRels media tpl tgt).1)] at hr
    rcases List.mem_append.mp hr with h | h
    · exact ⟨r, h, rfl, rfl⟩
    · rcases allocRels_pairs _ _ r h with ⟨t, htM, h1, h2⟩
      rcases allocRels_covers (maxRid tgt) _ t htM with ⟨s, hs, g1, g2⟩
      refine ⟨s, ?_, g1.trans h1, g2.trans h2⟩
      rw [importDocRels_fst]
      exact List.mem_append_right _ hs
  · exact mergeStylesXml_idem
  · intro refs m1 m2
    rw [hfRefCount_composeSectPrMain, hfRefCount_composeSectPrMain]

/-- Witness for c2_amended at a concrete input: the relationship that
the second run allocates as rId3 duplicates a (type, target) pair of the
first-run output. -/
theorem c2_amended_witness :
    ∃ s ∈ (importDocRels [] c2Tpl c2Tgt).1,
      s.relType = (Relationship.mk "rId3" "hfT" "header1.xml").relType
      ∧ s.target = (Relationship.mk "rId3" "hfT" "header1.xml").target :=
  (c2_amended [] c2Tpl c2Tgt).2.1 ⟨"rId3", "hfT", "header1.xml"⟩ (by decide)

/-! ## Claim C3 -/

/-- Claim C3 is false: a template whose SectionProperties lists a footer
reference before a header reference yields an output whose children are
not in the mandated category order (the footer reference precedes the
header reference). -/
theorem c3_counterexample :
    nondecB ((composeSectPrMain [(false, "rId7"), (true, "rId8")] []).map catRank) = false := by
  decide

/-- Claim C3 (amended): the output SectionProperties children are
exactly section type, page size, page margins, followed by the template
header/footer references in template document order; the mandated
category order holds exactly when the template references are already
category ordered (all header references before all footer
references). -/
theorem c3_amended (refs : List (Bool × String)) (m : List (String × String)) :
    composeSectPrMain refs m
        = SectChild.secType "nextPage" :: a4PgSz :: stdPgMar :: refs.map (mapHFRef m)
    ∧ (nondecB (refs.map kindRank) = true →
        nondecB ((composeSectPrMain refs m).map catRank) = true) := by
  refine ⟨composeSectPrMain_eq refs m, ?_⟩
  intro h
  have hranks : ((composeSectPrMain refs m).map catRank)
      = 0 :: 1 :: 2 :: refs.map kindRank := by
    rw [composeSectPrMain_eq, List.map_cons, List.map_cons, List.map_cons, ranks_of_mapped]
    rfl
  rw [hranks]
  apply nondecB_prefix _ h
  intro x hx
  rcases List.mem_map.mp hx with ⟨kr, _, rfl⟩
  exact kindRank_ge kr

/-- Witness for c3_amended: a template listing its header reference
before its footer reference produces category-ordered output. -/
theorem c3_amended_witness :
    nondecB ((composeSectPrMain [(true, "rId4"), (false, "rId5")] []).map catRank) = true :=
  (c3_amended [(true, "rId4"), (false, "rId5")] []).2 (by decide)

/-! ## Claim C4 -/

/-- The wordprocessing header MIME type. -/
def headerMime : String :=
  "application/vnd.openxmlformats-officedocument.wordprocessingml.header+xml"

/-- Template content types declaring an Override for a header part. -/
def c4Tpl : ContentTypes := ⟨[], [⟨"/word/header1.xml", headerMime⟩]⟩

/-- Target content types whose Default for the xml extension already
covers the header part, with no Override present. -/
def c4Tgt : ContentTypes := ⟨[⟨"xml", "application/xml"⟩], []⟩

theorem mem_foldl_addOverride (l : List CTOverride) (acc : List CTOverride)
    (o : CTOverride) (h : o ∈ l.foldl addOverrideIfAbsent acc) :
    o ∈ acc ∨ ∀ t ∈ acc, t.oPart ≠ o.oPart := by
  induction l generalizing acc with
  | nil => exact Or.inl h
  | cons x rest ih =>
      rw [List.foldl_cons] at h
      rcases ih (addOverrideIfAbsent acc x) h with h1 | h1
      · unfold addOverrideIfAbsent at h1
        by_cases hc : acc.any (fun t => t.oPart == x.oPart) = true
        · rw [if_pos hc] at h1
          exact Or.inl h1
        · rw [if_neg hc] at h1
          rcases List.mem_append.mp h1 with h2 | h2
          · exact Or.inl h2
          · have hx : o = x := by simpa using h2
            subst hx
            right
            intro t ht heq
            exact hc (List.any_eq_true.mpr ⟨t, ht, by simp [heq]⟩)
      · right
        intro t ht
        apply h1
        unfold addOverrideIfAbsent
        by_cases hc : acc.any (fun t => t.oPart == x.oPart) = true
        · rw [if_pos hc]; exact ht
        · rw [if_neg hc]; exact List.mem_append_left _ ht

/-- Claim C4 is false on both conjuncts at this input: the target
Default for the xml extension already covers /word/header1.xml, no
Override exists for it, and the engine still adds an Override for it
(Defaults are never consulted). -/
theorem c4_counterexample :
    coversPart c4Tgt "/word/header1.xml" = true
    ∧ (mergeContentTypes c4Tpl c4Tgt).cOverrides.any
        (fun o => o.oPart == "/word/header1.xml") = true
    ∧ c4Tgt.cOverrides.any (fun o => o.oPart == "/word/header1.xml") = false :=
  ⟨by decide, by decide, by decide⟩

/-- Claim C4 (amended): an Override is added only when no Override with
the same PartName is already present — matching Defaults are not
consulted — and no coverage check runs before serialization: the merge
is total and its output can leave a part with no applicable rule, so
composition never fails with UndeclaredPartType. -/
theorem c4_amended :
    (∀ tpl tgt : ContentTypes, ∀ o, o ∈ (mergeContentTypes tpl tgt).cOverrides →
        o ∈ tgt.cOverrides ∨ ∀ t ∈ tgt.cOverrides, t.oPart ≠ o.oPart)
    ∧ (∃ tpl tgt : ContentTypes, ∃ part,
        coversPart (mergeContentTypes tpl tgt) part = false) := by
  constructor
  · intro tpl tgt o ho
    exact mem_foldl_addOverride _ _ _ ho
  · exact ⟨⟨[], []⟩, ⟨[], []⟩, "/word/custom.bin", by decide⟩

/-- Witness for c4_amended at the concrete input of the counterexample:
the added header Override indeed had no same-name Override in the
target. -/
theorem c4_amended_witness :
    (CTOverride.mk "/word/header1.xml" headerMime ∈ (mergeContentTypes c4Tpl c4Tgt).cOverrides)
    ∧ (CTOverride.mk "/word/header1.xml" headerMime ∈ c4Tgt.cOverrides
        ∨ ∀ t ∈ c4Tgt.cOverrides,
            t.oPart ≠ (CTOverride.mk "/word/header1.xml" headerMime).oPart) :=
  ⟨by decide, c4_amended.1 c4Tpl c4Tgt ⟨"/word/header1.xml", headerMime⟩ (by decide)⟩

/-! ## Claim C6 -/

/-- Template auxiliary parts carrying only a theme. -/
def c6Tpl : AuxParts := ⟨none, some "TPLTHEME", none, none, none, none⟩

/-- Target auxiliary parts carrying a different theme. -/
def c6Tgt : AuxParts := ⟨none, some "TGTTHEME", none, none, none, none⟩

/-- Claim C6 is false on its theme conjunct: when both packages carry a
theme part the engine keeps the target theme; the template theme never
overwrites it. -/
theorem c6_counterexample :
    (copyStyleFiles c6Tpl c6Tgt).themeP = some "TGTTHEME"
    ∧ (copyStyleFiles c6Tpl c6Tgt).themeP ≠ c6Tpl.themeP :=
  ⟨by decide, by decide⟩

/-- Claim C6 (amended): every auxiliary part — theme included — is
copied from the template only when the target lacks it; when the target
has the part, the target version is kept unchanged. -/
theorem c6_amended (tpl tgt : AuxParts) :
    ((∀ u, tgt.themeP = some u → (copyStyleFiles tpl tgt).themeP = some u)
      ∧ (tgt.themeP = none → (copyStyleFiles tpl tgt).themeP = tpl.themeP))
    ∧ ((∀ u, tgt.numberingP = some u → (copyStyleFiles tpl tgt).numberingP = some u)
      ∧ (tgt.numberingP = none → (copyStyleFiles tpl tgt).numberingP = tpl.numberingP))
    ∧ ((∀ u, tgt.fontTableP = some u → (copyStyleFiles tpl tgt).fontTableP = some u)
      ∧ (tgt.fontTableP = none → (copyStyleFiles tpl tgt).fontTableP = tpl.fontTableP))
    ∧ ((∀ u, tgt.settingsP = some u → (copyStyleFiles tpl tgt).settingsP = some u)
      ∧ (tgt.settingsP = none → (copyStyleFiles tpl tgt).settingsP = tpl.settingsP)) := by
  refine ⟨⟨?_, ?_⟩, ⟨?_, ?_⟩, ⟨?_, ?_⟩, ⟨?_, ?_⟩⟩ <;>
    first
      | (intro u h; simp [copyStyleFiles, keepTargetOrCopy, h])
      | (intro h; simp [copyStyleFiles, keepTargetOrCopy, h])

/-- Witness for c6_amended: the target theme survives the merge. -/
theorem c6_amended_witness :
    (copyStyleFiles c6Tpl c6Tgt).themeP = some "TGTTHEME" :=
  (c6_amended c6Tpl c6Tgt).1.1 "TGTTHEME" (by decide)

/-! ## Claim C7 -/

/-- A template styles.xml carrying one header-named style. -/
def c7Tpl : List StylesChild := [StylesChild.sty ⟨"CompanyHeaderText", "tplbody"⟩]

/-- A target styles.xml carrying its own Heading1 style. -/
def c7Tgt : List StylesChild := [StylesChild.sty ⟨"Heading1", "tgtbody"⟩]

/-- Claim C7 is false: the template style CompanyHeaderText has a
non-colliding id (and even passes the Header name filter), yet it is not
appended — the merge leaves the target style collection unchanged,
because the append step searches the descendants of the root for a
styles element and a flat styles.xml has none. -/
theorem c7_counterexample :
    mergeStylesXml c7Tpl c7Tgt = c7Tgt
    ∧ (allStyles (mergeStylesXml c7Tpl c7Tgt)).any
        (fun s => s.styleId == "CompanyHeaderText") = false :=
  ⟨by decide, by decide⟩

/-- Claim C7 (amended): for any flat target styles.xml (no descendant
element tagged styles), the merge never imports a style: it at most
prepends the template docDefaults block, keeps every target child in
place — so an existing Heading1 stays unchanged — and leaves the style
collection identical. -/
theorem c7_amended (tpl tgt : List StylesChild) (h : findStylesIdx tgt = none) :
    ∃ pre, mergeStylesXml tpl tgt = pre ++ tgt
      ∧ (∀ c ∈ pre, isDDChild c = true)
      ∧ allStyles (mergeStylesXml tpl tgt) = allStyles tgt := by
  have hM : mergeStylesXml tpl tgt
      = foldSteps ((allStyles tpl).filter hfStyleFilter) (ddStep tpl tgt) := rfl
  have hcases : ddStep tpl tgt = tgt ∨ ∃ d, ddStep tpl tgt = StylesChild.dd d :: tgt := by
    rcases hfd : firstDD tpl with _ | d
    · left; simp [ddStep, hfd]
    · by_cases hD : hasDDb tgt = true
      · left; simp [ddStep, hfd, hD]
      · by_cases hL : tgt.length > 0
        · right; exact ⟨d, by simp [ddStep, hfd, hD, hL]⟩
        · left; simp [ddStep, hfd, hD, hL]
  rcases hcases with hd | ⟨d, hd⟩
  · have hnone : findStylesIdx (ddStep tpl tgt) = none := by rw [hd]; exact h
    have hid : mergeStylesXml tpl tgt = ddStep tpl tgt := by
      rw [hM]; exact foldSteps_id_of_none _ _ hnone
    refine ⟨[], ?_, ?_, ?_⟩
    · rw [hid, hd]; rfl
    · intro c hc; cases hc
    · rw [hid, hd]
  · have hnone : findStylesIdx (ddStep tpl tgt) = none := by
      rw [hd]
      simp [findStylesIdx, isStylesElem, h]
    have hid : mergeStylesXml tpl tgt = StylesChild.dd d :: tgt := by
      rw [hM, foldSteps_id_of_none _ _ hnone, hd]
    refine ⟨[StylesChild.dd d], ?_, ?_, ?_⟩
    · rw [hid]; rfl
    · intro c hc
      have : c = StylesChild.dd d := by simpa using hc
      subst this
      rfl
    · rw [hid]; rfl

/-- Witness for c7_amended at the concrete counterexample input. -/
theorem c7_amended_witness :
    ∃ pre, mergeStylesXml c7Tpl c7Tgt = pre ++ c7Tgt
      ∧ (∀ c ∈ pre, isDDChild c = true)
      ∧ allStyles (mergeStylesXml c7Tpl c7Tgt) = allStyles c7Tgt :=
  c7_amended c7Tpl c7Tgt (by decide)

/-! ## Claim C8 -/

/-- A template SectionProperties declaring US Letter geometry with
two-inch margins. -/
def c8TplSect : List SectChild :=
  [SectChild.pgSz "12240" "15840" "portrait",
   SectChild.pgMar "2880" "2880" "2880" "2880" "1440" "1440",
   SectChild.headerRef "rId9"]

/-- Claim C8 is false: the template declares page size and margins, yet
the output carries the synthesized A4 size and the fixed 1440/720
margins instead of the verbatim template children. -/
theorem c8_counterexample :
    (composeFromTemplateSectPr c8TplSect []).find? isPgMar = some stdPgMar
    ∧ stdPgMar ≠ SectChild.pgMar "2880" "2880" "2880" "2880" "1440" "1440"
    ∧ (composeFromTemplateSectPr c8TplSect []).find? isPgSz = some a4PgSz
    ∧ a4PgSz ≠ SectChild.pgSz "12240" "15840" "portrait" :=
  ⟨by decide, by decide, by decide, by decide⟩

/-- Claim C8 (amended): the engine never copies page geometry from the
template; for every template SectionProperties the output page margins
are the fixed 1440/720 values and the output page size is the
synthesized A4 element. -/
theorem c8_amended (tplSect : List SectChild) (m : List (String × String)) :
    (composeFromTemplateSectPr tplSect m).find? isPgMar = some stdPgMar
    ∧ (composeFromTemplateSectPr tplSect m).find? isPgSz = some a4PgSz := by
  constructor
  · show List.find? isPgMar (composeSectPrMain (refsOfSectPr tplSect) m) = some stdPgMar
    rw [composeSectPrMain_eq]
    rw [List.find?_cons_of_neg _ (by simp [isPgMar]),
      List.find?_cons_of_neg _ (by simp [isPgMar, a4PgSz]),
      List.find?_cons_of_pos _ (by simp [isPgMar, stdPgMar])]
  · show List.find? isPgSz (composeSectPrMain (refsOfSectPr tplSect) m) = some a4PgSz
    rw [composeSectPrMain_eq]
    rw [List.find?_cons_of_neg _ (by simp [isPgSz]),
      List.find?_cons_of_pos _ (by simp [isPgSz, a4PgSz])]

/-! ## Claims C5, C9, C10: serialization and batch effects -/

theorem altBranch_apply (fs : FS) (base : String) (fl : SaveFlags) (q : String)
    (h1 : ¬ q = base ++ "_alt.zip") (h2 : ¬ q = base ++ "_alt.docx") :
    altBranch fs base fl q = fs q := by
  obtain ⟨a, m, r, n, z, d⟩ := fl
  cases z <;> cases d <;> simp [altBranch, fsUpdate, h1, h2]

/-- Pre-existing output file for the C5 counterexample. -/
def c5Fs : FS := fun p => if p = "out.zip" then some (.file 0) else none

/-- Serialization flags for C5: the archive write fails, so does the
alternative archive. -/
def c5Fl : SaveFlags := ⟨false, true, true, true, false, true⟩

/-- Claim C5 is false: for an output path ending in .zip the staging
path splitext(output) + .zip coincides with the output path itself, so a
failing archive write partially overwrites the pre-existing output file
even though the run failed. -/
theorem c5_counterexample :
    c5Fs "out.zip" = some (FData.file 0)
    ∧ saveMain c5Fs "out.zip" c5Fl "out.zip" = some (FData.archive false) :=
  ⟨by decide, by decide⟩

/-- Claim C5 (amended): provided the staging paths derived from the
output path differ from the output path itself (which fails exactly when
the output path ends in .zip), a run whose archive step fails leaves the
output path untouched, and in every run the output path ends up
unchanged, absent, or holding a completely written archive — never
partial data. -/
theorem c5_amended (fs : FS) (out : String) (fl : SaveFlags)
    (hz : ¬ out = splitextBase out ++ ".zip")
    (ha : ¬ out = splitextBase out ++ "_alt.zip")
    (hd : ¬ out = splitextBase out ++ "_alt.docx") :
    (fl.archiveOk = false → saveMain fs out fl out = fs out)
    ∧ (saveMain fs out fl out = fs out ∨ saveMain fs out fl out = none
        ∨ saveMain fs out fl out = some (FData.archive true)) := by
  have halt : ∀ fs' : FS, altBranch fs' (splitextBase out) fl out = fs' out :=
    fun fs' => altBranch_apply fs' _ fl out ha hd
  constructor
  · intro h
    simp only [saveMain, h]
    simp [halt, fsUpdate, hz, Ne.symm hz]
  · simp only [saveMain]
    split_ifs <;> simp [halt, fsUpdate, hz, Ne.symm hz, *]

/-- Empty filesystem for the witnesses of the save claims. -/
def emptyFs : FS := fun _ => none

/-- Witness for c5_amended: with a .docx output path and a failing
archive step, the output path is untouched. -/
theorem c5_amended_witness :
    saveMain emptyFs "keep.docx" c5Fl "keep.docx" = emptyFs "keep.docx" :=
  (c5_amended emptyFs "keep.docx" c5Fl (by decide) (by decide) (by decide)).1 rfl

/-- Initial filesystem for the C9 failing input: only the input document
exists. -/
def c9Fs : FS := fun p => if p = "in.docx" then some (.file 1) else none

/-- Flags for the C9 failing input: the archive write fails and the
alternative archive write also fails; everything else would succeed. -/
def c9Fl : SaveFlags := ⟨false, true, true, true, false, true⟩

/-- Claim C9, settled as a code bug: when both serialization attempts
fail inside apply_branding_to_docx, the function swallows the errors and
returns normally, so batch_process reports completion, writes no output,
and never creates the fallback copy of the original — a zero-output
silent drop, contradicting the fallback comment in batch_process (and
the main_backup variant, which returns a boolean that its batch checks).
After the run there is no file at the output path, no fallback copy, no
alternative output, and the input is untouched. -/
theorem c9_code_bug :
    batchStepDocx c9Fs "in.docx" "doc.docx" false c9Fl true "doc.docx" = none
    ∧ batchStepDocx c9Fs "in.docx" "doc.docx" false c9Fl true "doc_fallback.docx" = none
    ∧ batchStepDocx c9Fs "in.docx" "doc.docx" false c9Fl true "doc_alt.docx" = none
    ∧ batchStepDocx c9Fs "in.docx" "doc.docx" false c9Fl true "in.docx" = some (FData.file 1) :=
  ⟨by decide, by decide, by decide, by decide⟩

/-- Initial filesystem for the C10 counterexample: the input file lives
at the path the archive step will use for staging. -/
def c10Fs : FS := fun p => if p = "out.zip" then some (.file 7) else none

/-- All-success serialization flags. -/
def allOkFl : SaveFlags := ⟨true, true, true, true, true, true⟩

/-- Claim C10 is false: a call with input path out.zip and output path
out.docx (distinct paths) destroys the input file — the archive step
overwrites it and the rename step then moves it away, leaving nothing at
the input path. -/
theorem c10_counterexample :
    ¬ ("out.zip" : String) = "out.docx"
    ∧ c10Fs "out.zip" = some (FData.file 7)
    ∧ saveMain c10Fs "out.docx" allOkFl "out.zip" = none :=
  ⟨by decide, by decide, by decide⟩

/-- Claim C10 (amended): the input file is unchanged by serialization
provided its path differs from the output path and from the three
staging paths derived from the output path (base.zip, base_alt.zip,
base_alt.docx); all other mutation happens inside the fresh temporary
directory. -/
theorem c10_amended (fs : FS) (inp out : String) (fl : SaveFlags)
    (h0 : ¬ inp = out)
    (h1 : ¬ inp = splitextBase out ++ ".zip")
    (h2 : ¬ inp = splitextBase out ++ "_alt.zip")
    (h3 : ¬ inp = splitextBase out ++ "_alt.docx") :
    saveMain fs out fl inp = fs inp := by
  have halt : ∀ fs' : FS, altBranch fs' (splitextBase out) fl inp = fs' inp :=
    fun fs' => altBranch_apply fs' _ fl inp h2 h3
  simp only [saveMain]
  split_ifs <;> simp [halt, fsUpdate, h0, h1, Ne.symm h0, Ne.symm h1]

/-- Witness for c10_amended: a well-separated input path survives a
fully successful run unchanged. -/
theorem c10_amended_witness :
    saveMain emptyFs "keep.docx" allOkFl "in.docx" = emptyFs "in.docx" :=
  c10_amended emptyFs "in.docx" "keep.docx" allOkFl (by decide) (by decide)
    (by decide) (by decide)

end CyberDocs
